import Mathlib

/-!
Verification of the trajectory data-preparation core of the LMTAD repository
(`code/datasets.py`): the vocabulary codec (`VocabDictionary`), the check-in
feature vectorizer and dataset statistics (`POLDataset`), the taxi outlier
synthesizer (`PortoDataset.generate_outliers` and helpers), and the two batch
collators.  Python functions are shallowly embedded as Lean functions; fallible
operations (dict lookup `KeyError`, `IndexError`, numpy `ValueError`) return
`Option`; the process-global numpy random generator is modelled as an explicit
state threaded through the computation.
-/

set_option maxHeartbeats 1000000

namespace LMTAD

/-! ### Vocabulary codec: `VocabDictionary` -/

/-- A vocabulary as loaded by `json.load`: the ordered key/value pairs of a
Python dict mapping symbol strings to token ids. -/
abbrev Vocab := List (String × Nat)

/-- `self.vocab[s]`: Python dict lookup.  Dict keys are unique, so the first
matching pair is the unique one; a missing key raises `KeyError` (`none`). -/
def vlookup (v : Vocab) (s : String) : Option Nat :=
  (v.find? (fun p => p.1 == s)).map (fun p => p.2)

/-- `self.reverse_map_vocab[t]`: the comprehension
`{value: item for item, value in self.vocab.items()}` iterates the dict in
order, later entries overwriting earlier ones, so lookup by id finds the LAST
pair carrying that id. -/
def reverse_lookup (v : Vocab) (t : Nat) : Option String :=
  (v.reverse.find? (fun p => p.2 == t)).map (fun p => p.1)

/-- `VocabDictionary.encode` on string symbols.  The source coerces each
element with `str` before lookup, which is the identity on strings; a missing
symbol raises `KeyError`, modelled as `none`. -/
def encode (v : Vocab) : List String → Option (List Nat)
  | [] => some []
  | s :: rest =>
    match vlookup v s, encode v rest with
    | some t, some ts => some (t :: ts)
    | _, _ => none

/-- `VocabDictionary.encode` on a list of integers: each element passes through
`str(string)` before the dict lookup, so the integer `x` is looked up under its
decimal string form. -/
def encode_ints (v : Vocab) : List Int → Option (List Nat)
  | [] => some []
  | x :: rest =>
    match vlookup v (toString x), encode_ints v rest with
    | some t, some ts => some (t :: ts)
    | _, _ => none

/-- `VocabDictionary.decode`. -/
def decode (v : Vocab) : List Nat → Option (List String)
  | [] => some []
  | t :: rest =>
    match reverse_lookup v t, decode v rest with
    | some s, some ss => some (s :: ss)
    | _, _ => none

/-- `VocabDictionary.pad()`. -/
def padSym : String := "PAD"

/-- `VocabDictionary.eot()`. -/
def eotSym : String := "EOT"

/-- `VocabDictionary.pad_token()`. -/
def pad_token (v : Vocab) : Option Nat := vlookup v padSym

/-- Keys of a Python dict are pairwise distinct. -/
def KeysNodup (v : Vocab) : Prop := (v.map Prod.fst).Nodup

/-- The spec's vocabulary invariant: the symbol-to-id mapping is a bijection
onto its image, i.e. no two entries share an id. -/
def ValuesInj (v : Vocab) : Prop := ∀ p ∈ v, ∀ q ∈ v, p.2 = q.2 → p.1 = q.1

theorem vlookup_mem {v : Vocab} {s : String} {t : Nat}
    (h : vlookup v s = some t) : (s, t) ∈ v := by
  unfold vlookup at h
  cases hf : v.find? (fun p => p.1 == s) with
  | none => rw [hf] at h; simp at h
  | some p =>
    rw [hf] at h
    have hmem := List.mem_of_find?_eq_some hf
    have hkey := List.find?_some hf
    have hps : p.1 = s := by simpa using hkey
    simp at h
    have : p = (s, t) := by
      cases p with
      | mk a b => simp_all
    rw [this] at hmem
    exact hmem

theorem reverse_lookup_of_vlookup {v : Vocab} (hv : ValuesInj v)
    {s : String} {t : Nat} (h : vlookup v s = some t) :
    reverse_lookup v t = some s := by
  have hmem : (s, t) ∈ v := vlookup_mem h
  have hmemr : (s, t) ∈ v.reverse := by simpa using hmem
  have hsat : ∃ p ∈ v.reverse, (fun p : String × Nat => p.2 == t) p = true := by
    exact ⟨(s, t), hmemr, by simp⟩
  have hissome : (v.reverse.find? (fun p => p.2 == t)).isSome := by
    rw [List.find?_isSome]
    exact hsat
  cases hf : v.reverse.find? (fun p => p.2 == t) with
  | none => rw [hf] at hissome; simp at hissome
  | some q =>
    have hqmem : q ∈ v := by
      have := List.mem_of_find?_eq_some hf
      simpa using this
    have hqt : q.2 = t := by
      have := List.find?_some hf
      simpa using this
    have hqs : q.1 = s := hv q hqmem (s, t) hmem (by simpa using hqt)
    unfold reverse_lookup
    rw [hf]
    simp [hqs]

/-- Shared round-trip core: on a sequence of symbols all present in the
vocabulary, `encode` succeeds and `decode` inverts it. -/
theorem roundtrip_aux (v : Vocab) (hv : ValuesInj v) :
    ∀ s : List String, (∀ x ∈ s, (vlookup v x).isSome) →
      ∃ ts, encode v s = some ts ∧ decode v ts = some s := by
  intro s
  induction s with
  | nil => intro _; exact ⟨[], rfl, rfl⟩
  | cons a rest ih =>
    intro hall
    have ha : (vlookup v a).isSome := hall a (by simp)
    obtain ⟨t, ht⟩ := Option.isSome_iff_exists.mp ha
    obtain ⟨ts, hts, hdec⟩ := ih (fun x hx => hall x (by simp [hx]))
    refine ⟨t :: ts, ?_, ?_⟩
    · simp only [encode]
      rw [ht, hts]
    · simp only [decode]
      rw [reverse_lookup_of_vlookup hv ht, hdec]

/-- C3: for every vocabulary (a dict, so keys distinct) satisfying the data
model's bijection invariant, and every symbol sequence drawn from its key set,
`decode (encode s) = s`. -/
theorem decode_encode_roundtrip (v : Vocab) (hk : KeysNodup v)
    (hv : ValuesInj v) (s : List String)
    (hs : ∀ x ∈ s, (vlookup v x).isSome) :
    ∃ ts, encode v s = some ts ∧ decode v ts = some s :=
  roundtrip_aux v hv s hs

/-- Witness for C3: the spec's scenario vocabulary and sequence. -/
theorem decode_encode_roundtrip_witness :
    ∃ ts, encode [("A", 0), ("B", 1), ("PAD", 2), ("EOT", 3)] ["A", "B", "EOT"] = some ts ∧
      decode [("A", 0), ("B", 1), ("PAD", 2), ("EOT", 3)] ts = some ["A", "B", "EOT"] :=
  decode_encode_roundtrip [("A", 0), ("B", 1), ("PAD", 2), ("EOT", 3)]
    (by unfold KeysNodup; decide) (by unfold ValuesInj; decide)
    ["A", "B", "EOT"] (by decide)

theorem encode_ints_eq_encode_map (v : Vocab) :
    ∀ xs : List Int, encode_ints v xs = encode v (xs.map toString) := by
  intro xs
  induction xs with
  | nil => rfl
  | cons x rest ih =>
    simp only [encode_ints, List.map_cons, encode]
    rw [ih]

/-- C10: `encode` coerces every element to its string form before lookup, so
encoding an integer list equals encoding the list of decimal strings, and the
round trip returns the decimal string forms, not the integers. -/
theorem encode_coerces_ints_to_strings (v : Vocab) (xs : List Int)
    (hk : KeysNodup v) (hv : ValuesInj v)
    (hx : ∀ x ∈ xs, (vlookup v (toString x)).isSome) :
    encode_ints v xs = encode v (xs.map toString) ∧
      ∃ ts, encode_ints v xs = some ts ∧ decode v ts = some (xs.map toString) := by
  refine ⟨encode_ints_eq_encode_map v xs, ?_⟩
  have hall : ∀ y ∈ xs.map toString, (vlookup v y).isSome := by
    intro y hy
    obtain ⟨x, hxmem, hxy⟩ := List.mem_map.mp hy
    rw [← hxy]
    exact hx x hxmem
  obtain ⟨ts, hts, hdec⟩ := roundtrip_aux v hv (xs.map toString) hall
  exact ⟨ts, by rw [encode_ints_eq_encode_map v xs]; exact hts, hdec⟩

/-- Witness for C10: integer grid-cell ids looked up under their string forms. -/
theorem encode_coerces_ints_to_strings_witness :
    encode_ints [("5", 0), ("7", 1), ("PAD", 2)] [5, 7] =
      encode [("5", 0), ("7", 1), ("PAD", 2)] ([5, 7].map toString) ∧
    ∃ ts, encode_ints [("5", 0), ("7", 1), ("PAD", 2)] [5, 7] = some ts ∧
      decode [("5", 0), ("7", 1), ("PAD", 2)] ts = some ([(5 : Int), 7].map toString) :=
  encode_coerces_ints_to_strings [("5", 0), ("7", 1), ("PAD", 2)] [5, 7]
    (by unfold KeysNodup; decide) (by unfold ValuesInj; decide) (by decide)

/-- On a sequence of symbols all present in the vocabulary, `encode` succeeds
and preserves the length. -/
theorem encode_total (v : Vocab) :
    ∀ xs : List String, (∀ x ∈ xs, (vlookup v x).isSome) →
      ∃ ts, encode v xs = some ts ∧ ts.length = xs.length := by
  intro xs
  induction xs with
  | nil => intro _; exact ⟨[], rfl, rfl⟩
  | cons a rest ih =>
    intro hall
    obtain ⟨t, ht⟩ := Option.isSome_iff_exists.mp (hall a (by simp))
    obtain ⟨ts, hts, hlen⟩ := ih (fun x hx => hall x (by simp [hx]))
    refine ⟨t :: ts, ?_, by simp [hlen]⟩
    simp only [encode]
    rw [ht, hts]

/-! ### Check-in feature vectorizer: `POLDataset.get_feature_vector`

One row of the grouped check-in table, after the `eval` of each textual
sequence column: a user id, the per-visit `dayofweek` list, and the four
parallel per-visit sequences. -/

structure POLSample where
  user_id : String
  dayofweek : List String
  place : List String
  token : List Int
  duration_bucket : List String
  distance_label : List String

/-- Python `zip` over the four parallel per-visit sequences (stops at the
shortest). -/
def zip4 : List String → List Int → List String → List String →
    List (String × Int × String × String)
  | p :: ps, t :: ts, du :: dus, di :: dis => (p, t, du, di) :: zip4 ps ts dus dis
  | _, _, _, _ => []

/-- The per-visit block appended for one visit: the enabled features in the
source's fixed order (place, gps token via `str`, duration, distance). -/
def visit_block (features : List String) (p : String) (t : Int)
    (du : String) (di : String) : List String :=
  (if "place" ∈ features then [p] else []) ++
  (if "gps" ∈ features then [toString t] else []) ++
  (if "duration" ∈ features then [du] else []) ++
  (if "distance" ∈ features then [di] else [])

/-- `POLDataset.get_feature_vector`.  `eval(sample["dayofweek"])[0]` raises
`IndexError` on an empty list, modelled as `none`. -/
def get_feature_vector (features : List String) (s : POLSample) :
    Option (List String) :=
  match s.dayofweek with
  | [] => none
  | d :: _ =>
    some ([s.user_id, d] ++
      (zip4 s.place s.token s.duration_bucket s.distance_label).flatMap
        (fun q => visit_block features q.1 q.2.1 q.2.2.1 q.2.2.2) ++ [eotSym])

/-- C8: a record with zero visits (all four parallel sequences empty) yields
exactly `[user_id, day_of_week, EOT]`, and this sequence encodes successfully
when its three symbols are in the vocabulary. -/
theorem zero_visit_record (features : List String) (v : Vocab) (s : POLSample)
    (d : String) (rest : List String) (hd : s.dayofweek = d :: rest)
    (h1 : s.place = []) (h2 : s.token = []) (h3 : s.duration_bucket = [])
    (h4 : s.distance_label = []) (hu : (vlookup v s.user_id).isSome)
    (hdw : (vlookup v d).isSome) (he : (vlookup v eotSym).isSome) :
    get_feature_vector features s = some [s.user_id, d, eotSym] ∧
      ∃ ts, encode v [s.user_id, d, eotSym] = some ts ∧ ts.length = 3 := by
  constructor
  · unfold get_feature_vector
    rw [hd, h1, h2, h3, h4]
    simp [zip4]
  · obtain ⟨ts, hts, hlen⟩ := encode_total v [s.user_id, d, eotSym] (by
      intro x hx
      simp only [List.mem_cons, List.not_mem_nil, or_false] at hx
      rcases hx with rfl | rfl | rfl
      · exact hu
      · exact hdw
      · exact he)
    exact ⟨ts, hts, by simpa using hlen⟩

/-- Witness for C8: a concrete zero-visit record. -/
theorem zero_visit_record_witness :
    get_feature_vector ["gps", "place"]
        ⟨"user_35", ["day_4"], [], [], [], []⟩ = some ["user_35", "day_4", eotSym] ∧
      ∃ ts, encode [("user_35", 0), ("day_4", 1), ("EOT", 2)]
          ["user_35", "day_4", eotSym] = some ts ∧ ts.length = 3 :=
  zero_visit_record ["gps", "place"] [("user_35", 0), ("day_4", 1), ("EOT", 2)]
    ⟨"user_35", ["day_4"], [], [], [], []⟩ "day_4" [] rfl rfl rfl rfl rfl
    (by decide) (by decide) (by decide)

/-! ### Check-in dataset statistics: `POLDataset.get_data`

One row of the grouped table as `get_data` sees it before any `eval`: the
derived integer user id, the parsed date (as an absolute day number, standing
for `pd.to_datetime`), and the raw TEXT of the `token` column (a list literal
such as `"[88, 90]"`). -/

structure POLRow where
  user_id_int : Int
  date : Int
  token : String

/-- The hard-coded anomalous-user list of `POLDataset.get_data`. -/
def outlier_list : List Int := [546, 644, 347, 62, 551, 992, 554, 949, 900, 57]

/-- Maximum of a list of integers (pandas `.max()` over a non-empty column). -/
def max_int (l : List Int) : Int := l.foldl max (l.headD 0)

/-- Maximum of a list of naturals; for a non-empty list this is Python
`max(...)`. -/
def maxNat (l : List Nat) : Nat := l.foldl max 0

/-- The outlier window: date within the last `days` days of the observed range
AND user in the fixed anomalous-user list. -/
def pol_is_outlier (rows : List POLRow) (days : Int) (r : POLRow) : Bool :=
  decide (max_int (rows.map (fun x => x.date)) - days < r.date) &&
    decide (r.user_id_int ∈ outlier_list)

/-- The row filter of `get_data`: when outliers are excluded by configuration,
outlier-labelled rows are dropped before anything else is derived. -/
def pol_filter (include_outliers : Bool) (days : Int) (rows : List POLRow) :
    List POLRow :=
  if include_outliers then rows
  else rows.filter (fun r => !(pol_is_outlier rows days r))

/-- `get_data` line 142:
`self.config.block_size = (data.token.str.len().max() * len(self.config.features)) + 3`.
The `token` column holds the unparsed text of each list literal, and pandas
`Series.str.len` on a string column is the CHARACTER length of each cell. -/
def pol_block_size (include_outliers : Bool) (days : Int) (rows : List POLRow)
    (nfeat : Nat) : Nat :=
  maxNat ((pol_filter include_outliers days rows).map (fun r => r.token.length))
    * nfeat + 3

/-- Split a character list on commas. -/
def split_on_comma : List Char → List (List Char)
  | [] => [[]]
  | c :: rest =>
    if c = ',' then [] :: split_on_comma rest
    else
      match split_on_comma rest with
      | g :: gs => (c :: g) :: gs
      | [] => [[c]]

/-- Read a decimal natural from a character list. -/
def read_digits : List Char → Nat → Nat
  | [], acc => acc
  | c :: rest, acc =>
    if c.isDigit then read_digits rest (acc * 10 + (c.toNat - 48))
    else read_digits rest acc

/-- Read one (possibly negative) decimal integer cell. -/
def parse_cell_int (cs : List Char) : Int :=
  match cs with
  | '-' :: rest => -(read_digits rest 0 : Int)
  | _ => (read_digits cs 0 : Int)

/-- Parser for a bracketed comma-separated integer list literal, the format of
the `token` column (this is what `eval` yields on such a cell). -/
def parse_int_list (s : String) : List Int :=
  let inner := s.toList.filter (fun c => !(c == '[' || c == ']' || c == ' '))
  if inner.isEmpty then [] else (split_on_comma inner).map parse_cell_int

/-- The block size the spec describes: maximum per-visit-sequence length
(number of entries of the parsed `token` list) times the number of enabled
features, plus 3, after the same outlier filtering. -/
def pol_block_size_claimed (include_outliers : Bool) (days : Int)
    (rows : List POLRow) (nfeat : Nat) : Nat :=
  maxNat ((pol_filter include_outliers days rows).map
    (fun r => (parse_int_list r.token).length)) * nfeat + 3

/-- C1: the code computes the block size from the CHARACTER length of the raw
`token` text, not from the per-visit-sequence length the spec (and the code's
own comment) describe: on a single non-outlier row whose token column reads
`"[88]"` (one visit) with four enabled features, the code sets
`block_size = 4 * 4 + 3 = 19` while the documented formula gives
`1 * 4 + 3 = 7`. -/
theorem block_size_uses_char_length :
    pol_block_size false 14 [⟨0, 0, "[88]"⟩] 4 = 19 ∧
      pol_block_size_claimed false 14 [⟨0, 0, "[88]"⟩] 4 = 7 ∧
      pol_block_size false 14 [⟨0, 0, "[88]"⟩] 4 ≠
        pol_block_size_claimed false 14 [⟨0, 0, "[88]"⟩] 4 := by
  refine ⟨by decide, by decide, by decide⟩

/-! ### Collators: `POLDataset.collate` and `PortoDataset.collate` -/

/-- The batch dictionary `{"data": ..., "mask": ..., "metadata": ...}` returned
by both collate functions (tensor stacking kept as a list of rows). -/
structure Batch (M : Type) where
  data : List (List Nat)
  mask : List (List Nat)
  metadata : List M

/-- `POLDataset.collate`: items are `(metadata, tokens)` pairs of already
encoded token lists; `max([...])` on an empty list raises `ValueError`
(`none`), and `pad_token()` raises `KeyError` when `PAD` is missing. -/
def pol_collate {M : Type} (v : Vocab) (items : List (M × List Nat)) :
    Option (Batch M) :=
  if items.isEmpty then none
  else
    match pad_token v with
    | none => none
    | some pad =>
      let maxLen := maxNat (items.map (fun it => it.2.length))
      some
        { data := items.map
            (fun it => it.2 ++ List.replicate (maxLen - it.2.length) pad),
          mask := items.map
            (fun it => List.replicate it.2.length 1 ++
              List.replicate (maxLen - it.2.length) 0),
          metadata := items.map (fun it => it.1) }

/-- The row loop of `PortoDataset.collate`: each symbol row is right-padded
with the `PAD` symbol and then encoded; a `KeyError` aborts the whole call. -/
def collate_rows {M : Type} (v : Vocab) (maxLen : Nat) :
    List (List String × M) → Option (List (List Nat))
  | [] => some []
  | it :: rest =>
    match encode v (it.1 ++ List.replicate (maxLen - it.1.length) padSym),
        collate_rows v maxLen rest with
    | some r, some rs => some (r :: rs)
    | _, _ => none

/-- `PortoDataset.collate`: items are `(symbols, metadata)` pairs of raw symbol
sequences, encoded after padding. -/
def porto_collate {M : Type} (v : Vocab) (items : List (List String × M)) :
    Option (Batch M) :=
  if items.isEmpty then none
  else
    let maxLen := maxNat (items.map (fun it => it.1.length))
    match collate_rows v maxLen items with
    | none => none
    | some rows =>
      some
        { data := rows,
          mask := items.map
            (fun it => List.replicate it.1.length 1 ++
              List.replicate (maxLen - it.1.length) 0),
          metadata := items.map (fun it => it.2) }

theorem init_le_foldl_max : ∀ (l : List Nat) (a : Nat), a ≤ l.foldl max a := by
  intro l
  induction l with
  | nil => intro a; exact Nat.le_refl a
  | cons y ys ih =>
    intro a
    exact le_trans (Nat.le_max_left a y) (ih (max a y))

theorem le_maxNat {l : List Nat} {x : Nat} (hx : x ∈ l) : x ≤ maxNat l := by
  unfold maxNat
  generalize 0 = a
  induction l generalizing a with
  | nil => cases hx
  | cons y ys ih =>
    rcases List.mem_cons.mp hx with rfl | hmem
    · exact le_trans (le_trans (Nat.le_max_right a x) (init_le_foldl_max ys (max a x)))
        (Nat.le_refl _)
    · exact ih hmem _

theorem getD_append_of_lt {α : Type} (l1 l2 : List α) (j : Nat) (d : α)
    (h : j < l1.length) : (l1 ++ l2).getD j d = l1.getD j d := by
  simp [List.getD_eq_getElem?_getD, List.getElem?_append_left h]

theorem getD_append_of_ge {α : Type} (l1 l2 : List α) (j : Nat) (d : α)
    (h : l1.length ≤ j) : (l1 ++ l2).getD j d = l2.getD (j - l1.length) d := by
  simp [List.getD_eq_getElem?_getD, List.getElem?_append_right h]

theorem getD_replicate_of_lt {α : Type} (n j : Nat) (x d : α) (h : j < n) :
    (List.replicate n x).getD j d = x := by
  simp [List.getD_eq_getElem?_getD, List.getElem?_replicate, h]

theorem getD_map_of_lt {α β : Type} (f : α → β) (l : List α) (i : Nat) (d : β)
    (h : i < l.length) : (l.map f).getD i d = f (l.get ⟨i, h⟩) := by
  simp [List.getD_eq_getElem?_getD, List.getElem?_map f l i,
    List.getElem?_eq_getElem h]

/-- The per-row guarantee of the collators: width `maxLen`, mask a prefix of
exactly `toks.length` ones then zeros, data the true tokens then the pad id. -/
def row_spec (pad maxLen : Nat) (toks row mrow : List Nat) : Prop :=
  row.length = maxLen ∧ mrow.length = maxLen ∧
  (∀ j, j < toks.length → mrow.getD j 0 = 1) ∧
  (∀ j, toks.length ≤ j → j < maxLen → mrow.getD j 0 = 0) ∧
  (∀ j, j < toks.length → row.getD j 0 = toks.getD j 0) ∧
  (∀ j, toks.length ≤ j → j < maxLen → row.getD j 0 = pad)

theorem row_spec_of_padded (pad maxLen : Nat) (toks : List Nat)
    (hle : toks.length ≤ maxLen) :
    row_spec pad maxLen toks
      (toks ++ List.replicate (maxLen - toks.length) pad)
      (List.replicate toks.length 1 ++
        List.replicate (maxLen - toks.length) 0) := by
  refine ⟨?_, ?_, ?_, ?_, ?_, ?_⟩
  · simp [Nat.add_sub_cancel' hle]
  · simp [Nat.add_sub_cancel' hle]
  · intro j hj
    rw [getD_append_of_lt _ _ _ _ (by simpa using hj)]
    exact getD_replicate_of_lt _ _ _ _ hj
  · intro j hj1 hj2
    rw [getD_append_of_ge _ _ _ _ (by simpa using hj1)]
    rw [List.length_replicate]
    exact getD_replicate_of_lt _ _ _ _ (by omega)
  · intro j hj
    exact getD_append_of_lt _ _ _ _ hj
  · intro j hj1 hj2
    rw [getD_append_of_ge _ _ _ _ hj1]
    exact getD_replicate_of_lt _ _ _ _ (by omega)

theorem encode_append_some {v : Vocab} :
    ∀ {xs ys : List String} {a b : List Nat}, encode v xs = some a →
      encode v ys = some b → encode v (xs ++ ys) = some (a ++ b) := by
  intro xs
  induction xs with
  | nil =>
    intro ys a b ha hb
    simp only [encode] at ha
    cases ha
    simpa using hb
  | cons x rest ih =>
    intro ys a b ha hb
    simp only [encode] at ha
    cases hx : vlookup v x with
    | none => rw [hx] at ha; simp at ha
    | some t =>
      rw [hx] at ha
      cases hrest : encode v rest with
      | none => rw [hrest] at ha; simp at ha
      | some ts =>
        rw [hrest] at ha
        simp at ha
        cases ha
        simp only [List.cons_append, encode, List.append_eq]
        rw [hx, ih hrest hb]

theorem encode_replicate_pad {v : Vocab} {pad : Nat}
    (h : vlookup v padSym = some pad) :
    ∀ n, encode v (List.replicate n padSym) = some (List.replicate n pad) := by
  intro n
  induction n with
  | zero => rfl
  | succ k ih =>
    simp only [List.replicate_succ, encode]
    rw [h, ih]

theorem collate_rows_total {M : Type} {v : Vocab} {pad : Nat} (m : Nat)
    (hpad : vlookup v padSym = some pad) :
    ∀ items : List (List String × M),
      (∀ it ∈ items, ∀ x ∈ it.1, (vlookup v x).isSome) →
      ∃ rows, collate_rows v m items = some rows := by
  intro items
  induction items with
  | nil => intro _; exact ⟨[], rfl⟩
  | cons it rest ih =>
    intro hall
    obtain ⟨ts, hts, _⟩ := encode_total v it.1
      (fun x hx => hall it (by simp) x hx)
    have hrow : encode v (it.1 ++ List.replicate (m - it.1.length) padSym) =
        some (ts ++ List.replicate (m - it.1.length) pad) :=
      encode_append_some hts (encode_replicate_pad hpad _)
    obtain ⟨rows, hrows⟩ := ih (fun q hq => hall q (by simp [hq]))
    refine ⟨(ts ++ List.replicate (m - it.1.length) pad) :: rows, ?_⟩
    simp only [collate_rows]
    rw [hrow, hrows]

theorem collate_rows_length {M : Type} {v : Vocab} {m : Nat} :
    ∀ {items : List (List String × M)} {rows : List (List Nat)},
      collate_rows v m items = some rows → rows.length = items.length := by
  intro items
  induction items with
  | nil =>
    intro rows h
    simp only [collate_rows] at h
    cases h
    rfl
  | cons it rest ih =>
    intro rows h
    simp only [collate_rows] at h
    cases he : encode v (it.1 ++ List.replicate (m - it.1.length) padSym) with
    | none => rw [he] at h; simp at h
    | some r =>
      rw [he] at h
      cases hr : collate_rows v m rest with
      | none => rw [hr] at h; simp at h
      | some rs =>
        rw [hr] at h
        simp at h
        cases h
        simp [ih hr]

theorem collate_rows_getD {M : Type} {v : Vocab} {m : Nat} :
    ∀ {items : List (List String × M)} {rows : List (List Nat)},
      collate_rows v m items = some rows →
      ∀ i (h : i < items.length),
        encode v ((items.get ⟨i, h⟩).1 ++
          List.replicate (m - (items.get ⟨i, h⟩).1.length) padSym) =
          some (rows.getD i []) := by
  intro items
  induction items with
  | nil => intro rows _ i h; cases h
  | cons it rest ih =>
    intro rows hrows i h
    simp only [collate_rows] at hrows
    cases he : encode v (it.1 ++ List.replicate (m - it.1.length) padSym) with
    | none => rw [he] at hrows; simp at hrows
    | some r =>
      rw [he] at hrows
      cases hr : collate_rows v m rest with
      | none => rw [hr] at hrows; simp at hrows
      | some rs =>
        rw [hr] at hrows
        simp at hrows
        cases hrows
        cases i with
        | zero => simpa using he
        | succ k =>
          have hk : k < rest.length := by simpa using h
          simpa using ih hr k hk

/-- C2: for every non-empty input list, each collate variant returns a batch
whose mask rows are a prefix of exactly the true length of ones followed by
zeros, whose token rows hold the pad id beyond the true length, whose token
and mask grids have identical shape of width the maximum true length, and
whose rows appear in input-list order (row `i` is built from item `i`). -/
theorem collate_pads_and_masks {M N : Type} (v : Vocab)
    (itemsP : List (M × List Nat)) (itemsQ : List (List String × N)) (pad : Nat)
    (hP : itemsP ≠ []) (hQ : itemsQ ≠ [])
    (hpad : vlookup v padSym = some pad)
    (hsyms : ∀ it ∈ itemsQ, ∀ x ∈ it.1, (vlookup v x).isSome) :
    (∃ b, pol_collate v itemsP = some b ∧
      b.metadata = itemsP.map (fun it => it.1) ∧
      b.data.length = itemsP.length ∧ b.mask.length = itemsP.length ∧
      ∀ i (h : i < itemsP.length),
        row_spec pad (maxNat (itemsP.map (fun it => it.2.length)))
          (itemsP.get ⟨i, h⟩).2 (b.data.getD i []) (b.mask.getD i [])) ∧
    (∃ b, porto_collate v itemsQ = some b ∧
      b.metadata = itemsQ.map (fun it => it.2) ∧
      b.data.length = itemsQ.length ∧ b.mask.length = itemsQ.length ∧
      ∀ i (h : i < itemsQ.length), ∃ ts,
        encode v (itemsQ.get ⟨i, h⟩).1 = some ts ∧
        ts.length = (itemsQ.get ⟨i, h⟩).1.length ∧
        row_spec pad (maxNat (itemsQ.map (fun it => it.1.length))) ts
          (b.data.getD i []) (b.mask.getD i [])) := by
  have hPe : itemsP.isEmpty = false := by
    cases itemsP with
    | nil => exact absurd rfl hP
    | cons a l => rfl
  have hQe : itemsQ.isEmpty = false := by
    cases itemsQ with
    | nil => exact absurd rfl hQ
    | cons a l => rfl
  constructor
  · refine ⟨Batch.mk
        (itemsP.map (fun it => it.2 ++ List.replicate
          (maxNat (itemsP.map (fun it => it.2.length)) - it.2.length) pad))
        (itemsP.map (fun it => List.replicate it.2.length 1 ++ List.replicate
          (maxNat (itemsP.map (fun it => it.2.length)) - it.2.length) 0))
        (itemsP.map (fun it => it.1)), ?_, rfl, by simp, by simp, ?_⟩
    · simp [pol_collate, hPe, pad_token, hpad]
    · intro i h
      rw [getD_map_of_lt _ _ _ _ (by simpa using h),
        getD_map_of_lt _ _ _ _ (by simpa using h)]
      exact row_spec_of_padded _ _ _
        (le_maxNat (List.mem_map_of_mem _ (List.get_mem itemsP i h)))
  · obtain ⟨rows, hrows⟩ :=
      collate_rows_total (maxNat (itemsQ.map (fun it => it.1.length))) hpad
        itemsQ hsyms
    refine ⟨Batch.mk rows
        (itemsQ.map (fun it => List.replicate it.1.length 1 ++ List.replicate
          (maxNat (itemsQ.map (fun it => it.1.length)) - it.1.length) 0))
        (itemsQ.map (fun it => it.2)), ?_, rfl, ?_, by simp, ?_⟩
    · simp [porto_collate, hQe, hrows]
    · simpa using collate_rows_length hrows
    · intro i h
      obtain ⟨ts, hts, htlen⟩ := encode_total v (itemsQ.get ⟨i, h⟩).1
        (fun x hx => hsyms _ (List.get_mem itemsQ i h) x hx)
      refine ⟨ts, hts, htlen, ?_⟩
      have hrow := collate_rows_getD hrows i h
      have hrow2 : encode v ((itemsQ.get ⟨i, h⟩).1 ++
          List.replicate ((maxNat (itemsQ.map (fun it => it.1.length))) -
            (itemsQ.get ⟨i, h⟩).1.length) padSym) =
          some (ts ++ List.replicate ((maxNat (itemsQ.map (fun it => it.1.length))) -
            (itemsQ.get ⟨i, h⟩).1.length) pad) :=
        encode_append_some hts (encode_replicate_pad hpad _)
      have hdata : rows.getD i [] = ts ++
          List.replicate ((maxNat (itemsQ.map (fun it => it.1.length))) -
            (itemsQ.get ⟨i, h⟩).1.length) pad := by
        have := hrow.symm.trans hrow2
        simpa using this
      have hle : (itemsQ.get ⟨i, h⟩).1.length ≤
          maxNat (itemsQ.map (fun it => it.1.length)) :=
        le_maxNat (List.mem_map_of_mem _ (List.get_mem itemsQ i h))
      rw [hdata, getD_map_of_lt _ _ _ _ (by simpa using h), ← htlen]
      exact row_spec_of_padded pad
        (maxNat (itemsQ.map (fun it => it.1.length))) ts
        (by rw [htlen]; exact hle)

/-- Witness for C2: the spec's scenario, two rows of token lengths 3 and 5
with pad id 2, through both collate variants. -/
theorem collate_pads_and_masks_witness :
    (∃ b, pol_collate [("A", 0), ("B", 1), ("PAD", 2), ("EOT", 3)]
      [((0 : Nat), [0, 1, 3]), (1, [0, 1, 0, 1, 3])] = some b) ∧
    (∃ b, porto_collate [("A", 0), ("B", 1), ("PAD", 2), ("EOT", 3)]
      [(["A", "B", "EOT"], (0 : Nat)), (["A", "B", "A", "B", "EOT"], 1)] = some b) := by
  have h := collate_pads_and_masks [("A", 0), ("B", 1), ("PAD", 2), ("EOT", 3)]
    [((0 : Nat), [0, 1, 3]), (1, [0, 1, 0, 1, 3])]
    [(["A", "B", "EOT"], (0 : Nat)), (["A", "B", "A", "B", "EOT"], 1)] 2
    (by decide) (by decide) (by decide) (by decide)
  obtain ⟨⟨b1, hb1, _⟩, ⟨b2, hb2, _⟩⟩ := h
  exact ⟨⟨b1, hb1⟩, ⟨b2, hb2⟩⟩

/-! ### The process-global numpy random generator, as explicit state

The generator's internal state is abstracted as a `Nat`; an implementation
supplies the reseeding map and the raw draws.  `np.random.randint(low, high)`
always returns a value in `[low, high)` (modelled by reducing a raw draw
modulo the range) and raises `ValueError` when `low >= high`. -/

structure NpRng where
  seedFn : Nat → Nat
  next : Nat → Int × Nat
  nextQ : Nat → Rat × Nat

/-- One in-range draw of `np.random.randint(low, high)` (bounds known good). -/
def randint_pair (g : NpRng) (low high : Int) (s : Nat) : Int × Nat :=
  (low + (g.next s).1 % (high - low), (g.next s).2)

/-- `np.random.randint(low, high)`: `ValueError` when `low >= high`. -/
def randint? (g : NpRng) (low high : Int) (s : Nat) : Option (Int × Nat) :=
  if low < high then some (randint_pair g low high s) else none

/-- `size` successive draws, as `np.random.randint(low, high, size=size)`. -/
def randints (g : NpRng) (low high : Int) : Nat → Nat → List Int × Nat
  | 0, s => ([], s)
  | k + 1, s =>
    let p := randint_pair g low high s
    let q := randints g low high k p.2
    (p.1 :: q.1, q.2)

/-- `np.random.randint(low, high, size=size)`: numpy validates the bounds
regardless of `size`. -/
def randint_many (g : NpRng) (low high : Int) (size : Nat) (s : Nat) :
    Option (List Int × Nat) :=
  if low < high then some (randints g low high size s) else none

/-- `np.random.random()` (the float value modelled as a rational). -/
def rand_q (g : NpRng) (s : Nat) : Rat × Nat := g.nextQ s

/-- Python `int(...)` on a number: truncation toward zero. -/
def int_trunc (q : Rat) : Int := if q < 0 then -((-q).floor) else q.floor

/-! ### Outlier synthesizer: `PortoDataset` -/

/-- The eight compass offsets of `_perturb_point`. -/
def compass : List (Int × Int) :=
  [(0, 1), (1, 0), (-1, 0), (0, -1), (1, 1), (-1, -1), (-1, 1), (1, -1)]

/-- `PortoDataset._perturb_point` with a supplied offset.  `map_size` is
`config.grip_size = (m0, m1)`; Python `//` and `%` are floor division and
floor modulus (`Int.fdiv`/`Int.fmod`).  The offset components reaching this
function are the exact integers -1, 0 or 1 times nothing fractional, so the
float arithmetic of the source is exact integer arithmetic. -/
def perturb_point (m0 m1 : Nat) (off : Int × Int) (level : Int) (p : Int) : Int :=
  let x := p.fdiv (m1 : Int)
  let y := p.fmod (m1 : Int)
  if 0 ≤ x + off.1 * level ∧ x + off.1 * level < (m0 : Int) ∧
      0 ≤ y + off.2 * level ∧ y + off.2 * level < (m1 : Int) then
    (x + off.1 * level) * (m1 : Int) + (y + off.2 * level)
  else
    x * (m1 : Int) + y

/-- `_perturb_point` with `offset=None`: one of the eight compass offsets is
drawn uniformly. -/
def perturb_point_rand (g : NpRng) (m0 m1 : Nat) (level : Int) (p : Int)
    (s : Nat) : Int × Nat :=
  let q := randint_pair g 0 8 s
  (perturb_point m0 m1 (compass.getD q.1.toNat (0, 0)) level p, q.2)

/-- The interior-point comprehension of `get_route_switch_outliers`: a point
equal to 0 is left untouched (and consumes no randomness, by short-circuit);
otherwise one `random()` decides whether to perturb. -/
def route_switch_points (g : NpRng) (m0 m1 : Nat) (level : Int) (prob : Rat) :
    List Int → Nat → List Int × Nat
  | [], s => ([], s)
  | p :: ps, s =>
    if p = 0 then
      let q := route_switch_points g m0 m1 level prob ps s
      (p :: q.1, q.2)
    else
      let r := rand_q g s
      if r.1 < prob then
        let pq := perturb_point_rand g m0 m1 level p r.2
        let q := route_switch_points g m0 m1 level prob ps pq.2
        (pq.1 :: q.1, q.2)
      else
        let q := route_switch_points g m0 m1 level prob ps r.2
        (p :: q.1, q.2)

/-- One trajectory of `get_route_switch_outliers`:
`[traj[0]] + [... for p in traj[1:-1]] + [traj[-1]]`; `traj[0]` raises
`IndexError` on an empty list. -/
def route_switch_traj (g : NpRng) (m0 m1 : Nat) (level : Int) (prob : Rat)
    (traj : List Int) (s : Nat) : Option (List Int × Nat) :=
  match traj with
  | [] => none
  | t0 :: rest =>
    some (t0 :: (route_switch_points g m0 m1 level prob rest.dropLast s).1 ++
        [rest.getLastD t0],
      (route_switch_points g m0 m1 level prob rest.dropLast s).2)

/-- `PortoDataset.get_route_switch_outliers`. -/
def get_route_switch_outliers (g : NpRng) (m0 m1 : Nat) (level : Int)
    (prob : Rat) : List (List Int) → Nat → Option (List (List Int) × Nat)
  | [], s => some ([], s)
  | t :: ts, s =>
    match route_switch_traj g m0 m1 level prob t s with
    | none => none
    | some (o, s1) =>
      match get_route_switch_outliers g m0 m1 level prob ts s1 with
      | none => none
      | some (os, s2) => some (o :: os, s2)

/-- Python slice-bound adjustment for `l[i:j]`. -/
def py_slice_idx (n : Nat) (i : Int) : Nat :=
  if i < 0 then ((n : Int) + i).toNat else min i.toNat n

/-- Python slice `l[i:j]`. -/
def py_slice {α : Type} (l : List α) (i j : Int) : List α :=
  (l.take (py_slice_idx l.length j)).drop (py_slice_idx l.length i)

/-- Python indexing `l[i]` with negative-index wrap-around; out of range
raises `IndexError` (`none`). -/
def py_index (l : List Int) (i : Int) : Option Int :=
  if 0 ≤ i then l.get? i.toNat
  else if 0 ≤ (l.length : Int) + i then l.get? ((l.length : Int) + i).toNat
  else none

/-- `anomaly_len = int((len(traj) - 2) * prob)`. -/
def anomaly_len (prob : Rat) (n : Nat) : Int := int_trunc (((n : Rat) - 2) * prob)

/-- One normalized axis of the detour offset:
`offset[i] / (1 if offset[i] == 0 else abs(offset[i]))`, exactly the sign of
the difference (the Python float division is exact here). -/
def axis_step (d : Int) : Int := d.ediv (if d = 0 then 1 else (d.natAbs : Int))

/-- The detour offset from the start cell `a` and end cell `b`: per-axis
normalized row/col differences, one axis negated according to the `flip`
coin. -/
def detour_offset (m1 : Nat) (a b : Int) (flip : Bool) : Int × Int :=
  if flip then
    (-(axis_step (a.fdiv (m1 : Int) - b.fdiv (m1 : Int))),
      axis_step (a.fmod (m1 : Int) - b.fmod (m1 : Int)))
  else
    (axis_step (a.fdiv (m1 : Int) - b.fdiv (m1 : Int)),
      -(axis_step (a.fmod (m1 : Int) - b.fmod (m1 : Int))))

/-- The splice of one detour trajectory once the span `[st, ed)` and its
boundary cells `a`, `b` are known:
`traj[:st] + [perturb(p) for p in traj[st:ed]] + traj[ed:]`, with the flip
coin drawn by one `random()` call. -/
def detour_seg (g : NpRng) (m0 m1 : Nat) (level : Int) (st ed : Int)
    (a b : Int) (traj : List Int) (s1 : Nat) : List Int × Nat :=
  (py_slice traj 0 st ++
    (py_slice traj st ed).map (perturb_point m0 m1
      (if (rand_q g s1).1 < 1 / 2 then detour_offset m1 a b true
       else detour_offset m1 a b false) level) ++
    py_slice traj ed (traj.length : Int),
  (rand_q g s1).2)

/-- One trajectory of `get_detour_outliers`: span length
`int((len(traj) - 2) * prob)`, start drawn by
`np.random.randint(1, len(traj) - anomaly_len - 1)` (a `ValueError` when the
range is empty); every span point is shifted by the same normalized offset. -/
def detour_traj (g : NpRng) (m0 m1 : Nat) (level : Int) (prob : Rat)
    (traj : List Int) (s : Nat) : Option (List Int × Nat) :=
  match randint? g 1 ((traj.length : Int) - anomaly_len prob traj.length - 1) s with
  | none => none
  | some (st, s1) =>
    match py_index traj st, py_index traj (st + anomaly_len prob traj.length) with
    | some a, some b =>
      some (detour_seg g m0 m1 level st (st + anomaly_len prob traj.length)
        a b traj s1)
    | _, _ => none

/-- The trajectory loop of `get_detour_outliers`. -/
def detour_list (g : NpRng) (m0 m1 : Nat) (level : Int) (prob : Rat) :
    List (List Int) → Nat → Option (List (List Int) × Nat)
  | [], s => some ([], s)
  | t :: ts, s =>
    match detour_traj g m0 m1 level prob t s with
    | none => none
    | some (o, s1) =>
      match detour_list g m0 m1 level prob ts s1 with
      | none => none
      | some (os, s2) => some (o :: os, s2)

/-- `PortoDataset.get_detour_outliers`, including the `vary` preamble (the
float constant 0.2 modelled as the rational 1/5). -/
def get_detour_outliers (g : NpRng) (m0 m1 : Nat) (batch : List (List Int))
    (level : Int) (prob : Rat) (vary : Bool) (s : Nat) :
    Option (List (List Int) × Nat) :=
  if vary then
    let d := randint_pair g (-2) 3 s
    let r := rand_q g d.2
    let r2 := rand_q g r.2
    let prob2 := if r.1 > 1 / 2 then prob + (1 / 5) * r2.1 else prob - (1 / 5) * r2.1
    detour_list g m0 m1 (level + d.1) prob2 batch r2.2
  else detour_list g m0 m1 level prob batch s

/-- `PortoDataset.generate_outliers` (file writing elided, the produced
outlier lists returned): reseeds the global generator to 0 before the
route-switch pass and to 10 before the detour pass (`vary=False`); each pass
draws `int(len(data) * ratio)` indices. -/
def generate_outliers (g : NpRng) (m0 m1 : Nat) (data : List (List Int))
    (ratio : Rat) (level : Int) (prob : Rat) (s0 : Nat) :
    Option (List (List Int) × List (List Int) × Nat) :=
  let n := data.length
  let cnt := (int_trunc ((n : Rat) * ratio)).toNat
  let s := g.seedFn 0
  match randint_many g 0 (n : Int) cnt s with
  | none => none
  | some (idxs, s1) =>
    match get_route_switch_outliers g m0 m1 level prob
        (idxs.map (fun i => data.getD i.toNat [])) s1 with
    | none => none
    | some (rs, _) =>
      let t := g.seedFn 10
      match randint_many g 0 (n : Int) cnt t with
      | none => none
      | some (idxs2, t1) =>
        match get_detour_outliers g m0 m1
            (idxs2.map (fun i => data.getD i.toNat [])) level prob false t1 with
        | none => none
        | some (dt, t2) => some (rs, dt, t2)

/-- A concrete generator implementation, used for counterexamples and
witnesses. -/
def rng0 : NpRng where
  seedFn := fun k => k
  next := fun s => ((s : Int), s + 1)
  nextQ := fun s => ((1 : Rat), s + 1)

/-- C4: outlier synthesis is deterministic.  `generate_outliers` reseeds the
global generator itself (to 0, then to 10), so its result does not depend on
the incoming generator state at all: two runs with the same generator
implementation, source set, ratio, severity level and probability (detour with
`vary=False`) produce identical output. -/
theorem generate_outliers_deterministic (g : NpRng) (m0 m1 : Nat)
    (data : List (List Int)) (ratio : Rat) (level : Int) (prob : Rat)
    (s1 s2 : Nat) :
    generate_outliers g m0 m1 data ratio level prob s1 =
      generate_outliers g m0 m1 data ratio level prob s2 := rfl

theorem int_trunc_ge {z : Int} {q : Rat} (h : (z : Rat) ≤ q) :
    z ≤ int_trunc q := by
  have hfl : z ≤ q.floor := Rat.le_floor.mpr h
  unfold int_trunc
  split_ifs with hq
  · by_contra hcon
    push_neg at hcon
    have h2 : (-z + 1 : Int) ≤ (-q).floor := by omega
    have h3 : ((-z + 1 : Int) : Rat) ≤ -q := Rat.le_floor.mp h2
    push_cast at h3
    linarith
  · exact hfl

theorem anomaly_len_ge {prob : Rat} (h1 : prob ≤ 1) {n : Nat} (hn : n ≤ 2) :
    (n : Int) - 2 ≤ anomaly_len prob n := by
  unfold anomaly_len
  apply int_trunc_ge
  have hnp : ((n : Rat) - 2) ≤ 0 := by
    have : (n : Rat) ≤ 2 := by exact_mod_cast hn
    linarith
  have hmul : ((n : Rat) - 2) * 1 ≤ ((n : Rat) - 2) * prob :=
    mul_le_mul_of_nonpos_left h1 hnp
  rw [mul_one] at hmul
  push_cast
  linarith

/-- C7: for any cell id in `[0, m0*m1)`, any offset (each of the eight compass
offsets, or a supplied one) and any severity level, `_perturb_point` returns a
cell id in `[0, m0*m1)`, and when the scaled offset would leave the grid on
either axis the input id is returned unchanged. -/
theorem perturb_point_in_grid (m0 m1 : Nat) (level p : Int) (g : NpRng)
    (s : Nat) (h0 : 0 ≤ p) (h1 : p < (m0 : Int) * (m1 : Int)) :
    (∀ off : Int × Int,
      (0 ≤ perturb_point m0 m1 off level p ∧
        perturb_point m0 m1 off level p < (m0 : Int) * (m1 : Int)) ∧
      (¬ (0 ≤ p.fdiv (m1 : Int) + off.1 * level ∧
          p.fdiv (m1 : Int) + off.1 * level < (m0 : Int) ∧
          0 ≤ p.fmod (m1 : Int) + off.2 * level ∧
          p.fmod (m1 : Int) + off.2 * level < (m1 : Int)) →
        perturb_point m0 m1 off level p = p)) ∧
    (0 ≤ (perturb_point_rand g m0 m1 level p s).1 ∧
      (perturb_point_rand g m0 m1 level p s).1 < (m0 : Int) * (m1 : Int)) := by
  have hm1 : (0 : Int) < (m1 : Int) := by
    rcases Nat.eq_zero_or_pos m1 with hz | hpos
    · exfalso; subst hz; simp at h1; omega
    · exact_mod_cast hpos
  have hid : p.fdiv (m1 : Int) * (m1 : Int) + p.fmod (m1 : Int) = p := by
    rw [Int.fdiv_eq_ediv p (le_of_lt hm1), Int.fmod_eq_emod p (le_of_lt hm1)]
    have := Int.ediv_add_emod p (m1 : Int)
    linarith
  have hmod1 : 0 ≤ p.fmod (m1 : Int) := by
    rw [Int.fmod_eq_emod p (le_of_lt hm1)]
    exact Int.emod_nonneg p (ne_of_gt hm1)
  have hmod2 : p.fmod (m1 : Int) < (m1 : Int) := by
    rw [Int.fmod_eq_emod p (le_of_lt hm1)]
    exact Int.emod_lt_of_pos p hm1
  have hmain : ∀ off : Int × Int,
      (0 ≤ perturb_point m0 m1 off level p ∧
        perturb_point m0 m1 off level p < (m0 : Int) * (m1 : Int)) ∧
      (¬ (0 ≤ p.fdiv (m1 : Int) + off.1 * level ∧
          p.fdiv (m1 : Int) + off.1 * level < (m0 : Int) ∧
          0 ≤ p.fmod (m1 : Int) + off.2 * level ∧
          p.fmod (m1 : Int) + off.2 * level < (m1 : Int)) →
        perturb_point m0 m1 off level p = p) := by
    intro off
    constructor
    · simp only [perturb_point]
      split_ifs with hb
      · obtain ⟨b1, b2, b3, b4⟩ := hb
        constructor
        · have := mul_nonneg b1 (le_of_lt hm1)
          linarith
        · have hx2 : p.fdiv (m1 : Int) + off.1 * level ≤ (m0 : Int) - 1 := by
            omega
          have hm : (p.fdiv (m1 : Int) + off.1 * level) * (m1 : Int) ≤
              ((m0 : Int) - 1) * (m1 : Int) :=
            mul_le_mul_of_nonneg_right hx2 (le_of_lt hm1)
          nlinarith
      · rw [hid]
        exact ⟨h0, h1⟩
    · intro hnot
      simp only [perturb_point]
      rw [if_neg hnot]
      exact hid
  refine ⟨hmain, ?_⟩
  exact (hmain (compass.getD ((randint_pair g 0 8 s).1.toNat) (0, 0))).1

/-- Witness for C7: on a 10 by 10 grid, id 5 with offset (1,1) at level 100
leaves the grid, so it is returned unchanged and stays in range. -/
theorem perturb_point_in_grid_witness :
    perturb_point 10 10 (1, 1) 100 5 = 5 ∧
      0 ≤ perturb_point 10 10 (1, 1) 100 5 ∧
      perturb_point 10 10 (1, 1) 100 5 < (10 : Int) * (10 : Int) := by
  have h := perturb_point_in_grid 10 10 100 5 rng0 0 (by decide) (by decide)
  exact ⟨(h.1 (1, 1)).2 (by decide), ((h.1 (1, 1)).1.1), ((h.1 (1, 1)).1.2)⟩

/-- C9: requesting a detour outlier for a source trajectory shorter than 3
points fails explicitly (numpy's `randint` raises `ValueError` because the
drawing range `[1, n - span_len - 1)` is empty), rather than returning a
corrupted trajectory. -/
theorem detour_short_fails (g : NpRng) (m0 m1 : Nat) (level : Int)
    (prob : Rat) (traj : List Int) (s : Nat) (h0 : 0 ≤ prob) (h1 : prob ≤ 1)
    (hn : traj.length < 3) :
    detour_traj g m0 m1 level prob traj s = none := by
  have hn2 : traj.length ≤ 2 := by omega
  have halen := anomaly_len_ge h1 hn2
  unfold detour_traj
  have hnone : randint? g 1
      ((traj.length : Int) - anomaly_len prob traj.length - 1) s = none := by
    unfold randint?
    rw [if_neg (by intro hcon; linarith)]
  rw [hnone]

/-- Witness for C9: a two-point trajectory. -/
theorem detour_short_fails_witness :
    detour_traj rng0 51 158 3 (3 / 10) [5, 6] 0 = none :=
  detour_short_fails rng0 51 158 3 (3 / 10) [5, 6] 0 (by norm_num) (by norm_num)
    (by decide)

theorem route_switch_points_length (g : NpRng) (m0 m1 : Nat) (level : Int)
    (prob : Rat) : ∀ (l : List Int) (s : Nat),
    ((route_switch_points g m0 m1 level prob l s).1).length = l.length := by
  intro l
  induction l with
  | nil => intro s; rfl
  | cons p ps ih =>
    intro s
    simp only [route_switch_points]
    split_ifs with h1 h2
    all_goals simp [ih]

theorem randint_pair_bounds (g : NpRng) (low high : Int) (s : Nat)
    (h : low < high) : low ≤ (randint_pair g low high s).1 ∧
      (randint_pair g low high s).1 < high := by
  unfold randint_pair
  constructor
  · show low ≤ low + (g.next s).1 % (high - low)
    have := Int.emod_nonneg (g.next s).1 (by omega : high - low ≠ 0)
    linarith
  · show low + (g.next s).1 % (high - low) < high
    have := Int.emod_lt_of_pos (g.next s).1 (by omega : 0 < high - low)
    linarith

theorem py_slice_of_bounds (l : List Int) (i j : Int) (hi : 0 ≤ i)
    (hj : 0 ≤ j) (hjl : j.toNat ≤ l.length) (hil : i.toNat ≤ l.length) :
    py_slice l i j = (l.take j.toNat).drop i.toNat := by
  unfold py_slice py_slice_idx
  rw [if_neg (by omega), if_neg (by omega), min_eq_left hjl, min_eq_left hil]

theorem getD_take_of_lt (l : List Int) (a j : Nat) (d : Int) (h : j < a) :
    (l.take a).getD j d = l.getD j d := by
  simp [List.getD_eq_getElem?_getD, List.getElem?_take, h]

theorem getD_drop_eq (l : List Int) (b k : Nat) (d : Int) :
    (l.drop b).getD k d = l.getD (b + k) d := by
  simp [List.getD_eq_getElem?_getD, List.getElem?_drop]

theorem getLast?_cons_getLastD (t0 : Int) (rest : List Int) :
    (t0 :: rest).getLast? = some (rest.getLastD t0) := by
  induction rest generalizing t0 with
  | nil => rfl
  | cons r rs ih => rw [List.getLast?_cons_cons, ih, List.getLastD_cons]

/-- Anatomy of a successful detour synthesis: there is a span `[a, b)` with
`1 <= a <= b <= length - 2` such that the output is the input with exactly the
span positions mapped through `perturb_point` at a fixed offset. -/
theorem detour_traj_structure (g : NpRng) (m0 m1 : Nat) (level : Int)
    (prob : Rat) (traj : List Int) (s : Nat) (out : List Int) (s1 : Nat)
    (h0 : 0 ≤ prob) (h1 : prob ≤ 1)
    (h : detour_traj g m0 m1 level prob traj s = some (out, s1)) :
    ∃ (a b : Nat) (off : Int × Int), 1 ≤ a ∧ a ≤ b ∧ b + 2 ≤ traj.length ∧
      out = traj.take a ++
        ((traj.take b).drop a).map (perturb_point m0 m1 off level) ++
        traj.drop b := by
  unfold detour_traj at h
  split at h
  · exact Option.noConfusion h
  · rename_i st s2 heq
    have hlt : 1 < (traj.length : Int) - anomaly_len prob traj.length - 1 := by
      by_contra hc
      unfold randint? at heq
      rw [if_neg hc] at heq
      exact Option.noConfusion heq
    have hpair : randint_pair g 1
        ((traj.length : Int) - anomaly_len prob traj.length - 1) s = (st, s2) := by
      unfold randint? at heq
      rw [if_pos hlt] at heq
      exact Option.some.inj heq
    have hb := randint_pair_bounds g 1
      ((traj.length : Int) - anomaly_len prob traj.length - 1) s hlt
    rw [hpair] at hb
    simp only at hb
    obtain ⟨hst1, hst2⟩ := hb
    have hn3 : 3 ≤ traj.length := by
      by_contra hc
      push_neg at hc
      have := anomaly_len_ge h1 (by omega : traj.length ≤ 2)
      linarith
    have halen0 : 0 ≤ anomaly_len prob traj.length := by
      unfold anomaly_len
      apply int_trunc_ge
      push_cast
      have h3 : (3 : Rat) ≤ (traj.length : Rat) := by exact_mod_cast hn3
      exact mul_nonneg (by linarith) h0
    split at h
    · rename_i a b heqa heqb
      have hseg := Option.some.inj h
      unfold detour_seg at hseg
      rw [Prod.mk.injEq] at hseg
      obtain ⟨hout1, -⟩ := hseg
      rw [py_slice_of_bounds traj 0 st (by omega) (by omega) (by omega)
          (by omega),
        py_slice_of_bounds traj st (st + anomaly_len prob traj.length)
          (by omega) (by omega) (by omega) (by omega),
        py_slice_of_bounds traj (st + anomaly_len prob traj.length)
          (traj.length : Int) (by omega) (by omega) (by omega) (by omega)]
        at hout1
      simp only [Int.toNat_zero, List.drop_zero, Int.toNat_natCast,
        List.take_length] at hout1
      exact ⟨st.toNat, (st + anomaly_len prob traj.length).toNat, _,
        by omega, by omega, by omega, hout1.symm⟩
    · exact Option.noConfusion h

theorem getD_eq_default_of_le (l : List Int) (j : Nat) (d : Int)
    (h : l.length ≤ j) : l.getD j d = d := by
  simp [List.getD_eq_getElem?_getD, List.getElem?_eq_none h]

/-- C6: positions not selected for perturbation are copied unmodified: the
first and last elements of every route-switch output equal those of its input,
and every detour output is its input with exactly the chosen interior span
`[a, b)` (with `1 <= a <= b <= length - 2`) mapped through the point
perturbation — so every element outside the chosen span, the last two
included, equals the corresponding input element. -/
theorem unperturbed_positions_preserved (g : NpRng) (m0 m1 : Nat)
    (level : Int) (prob : Rat) (traj : List Int) (s : Nat) :
    (∀ out s1, route_switch_traj g m0 m1 level prob traj s = some (out, s1) →
      out.head? = traj.head? ∧ out.getLast? = traj.getLast?) ∧
    (∀ out s1, 0 ≤ prob → prob ≤ 1 →
      detour_traj g m0 m1 level prob traj s = some (out, s1) →
      ∃ (a b : Nat) (off : Int × Int), 1 ≤ a ∧ a ≤ b ∧ b + 2 ≤ traj.length ∧
        out = traj.take a ++
          ((traj.take b).drop a).map (perturb_point m0 m1 off level) ++
          traj.drop b ∧
        (∀ j, j < a → out.getD j 0 = traj.getD j 0) ∧
        (∀ j, b ≤ j → out.getD j 0 = traj.getD j 0)) := by
  constructor
  · intro out s1 h
    cases traj with
    | nil => exact Option.noConfusion h
    | cons t0 rest =>
      unfold route_switch_traj at h
      have hpr := Option.some.inj h
      rw [Prod.mk.injEq] at hpr
      obtain ⟨hout, -⟩ := hpr
      constructor
      · rw [← hout]; rfl
      · rw [← hout, getLast?_cons_getLastD t0 rest]
        have : t0 :: (route_switch_points g m0 m1 level prob rest.dropLast s).1
            ++ [rest.getLastD t0] =
            (t0 :: (route_switch_points g m0 m1 level prob rest.dropLast s).1)
              ++ [rest.getLastD t0] := by simp
        rw [this, List.getLast?_concat]
  · intro out s1 h0 h1 h
    obtain ⟨a, b, off, ha, hab, hb2, hout⟩ :=
      detour_traj_structure g m0 m1 level prob traj s out s1 h0 h1 h
    have hta : (traj.take a).length = a := by
      rw [List.length_take]; omega
    have hmid : (((traj.take b).drop a).map
        (perturb_point m0 m1 off level)).length = b - a := by
      simp only [List.length_map, List.length_drop, List.length_take]
      omega
    have hlen : out.length = traj.length := by
      rw [hout]
      simp only [List.length_append, List.length_map, List.length_drop,
        List.length_take]
      omega
    refine ⟨a, b, off, ha, hab, hb2, hout, ?_, ?_⟩
    · intro j hj
      rw [hout, List.append_assoc,
        getD_append_of_lt _ _ _ _ (by rw [hta]; omega)]
      exact getD_take_of_lt traj a j 0 hj
    · intro j hjb
      by_cases hjn : j < traj.length
      · rw [hout, List.append_assoc,
          getD_append_of_ge _ _ _ _ (by rw [hta]; omega), hta,
          getD_append_of_ge _ _ _ _ (by rw [hmid]; omega), hmid,
          getD_drop_eq]
        have : b + (j - a - (b - a)) = j := by omega
        rw [this]
      · push_neg at hjn
        rw [getD_eq_default_of_le out j 0 (by omega),
          getD_eq_default_of_le traj j 0 (by omega)]

theorem rat_floor_eq_floor (q : Rat) : q.floor = ⌊q⌋ := by
  have h1 : q.floor ≤ ⌊q⌋ := Int.le_floor.mpr (Rat.le_floor.mp (le_refl q.floor))
  have h2 : ⌊q⌋ ≤ q.floor := Rat.le_floor.mpr (Int.floor_le q)
  omega

theorem anomaly_len_witness_value : anomaly_len (3 / 10) 6 = 1 := by
  unfold anomaly_len int_trunc
  have hv : (((6 : Nat) : Rat) - 2) * (3 / 10) = 6 / 5 := by norm_num
  rw [hv, if_neg (by norm_num), rat_floor_eq_floor]
  norm_num

/-- The concrete route-switch run used by the witnesses: with `rng0` the draw
1 is never below the probability 3/10, so no interior point moves. -/
theorem route_switch_witness_run :
    route_switch_traj rng0 51 158 3 (3 / 10) [5, 6, 7] 0 =
      some ([5, 6, 7], 1) := by
  have hlp : route_switch_points rng0 51 158 3 (3 / 10) ([6] : List Int) 0 =
      ([6], 1) := by
    simp only [route_switch_points]
    rw [if_neg (by decide : ¬ (6 : Int) = 0),
      if_neg (by norm_num [rand_q, rng0] : ¬ ((rand_q rng0 0).1 < 3 / 10))]
    rfl
  simp only [route_switch_traj]
  rw [show ([6, 7] : List Int).dropLast = [6] from rfl, hlp]
  rfl

/-- The concrete detour run used by the witnesses: span `[1, 2)` on
`[5, 6, 7, 8, 9, 10]`, offset `(0, 1)` at level 3, moving cell 6 to cell 9. -/
theorem detour_witness_run :
    detour_traj rng0 51 158 3 (3 / 10) [5, 6, 7, 8, 9, 10] 0 =
      some ([5, 9, 7, 8, 9, 10], 2) := by
  unfold detour_traj
  rw [show ([5, 6, 7, 8, 9, 10] : List Int).length = 6 from rfl,
    anomaly_len_witness_value]
  have hri : randint? rng0 1 (((6 : Nat) : Int) - 1 - 1) 0 = some (1, 1) := by
    decide
  simp only [hri]
  have hpa : py_index [5, 6, 7, 8, 9, 10] (1 : Int) = some 6 := by decide
  have hpb : py_index [5, 6, 7, 8, 9, 10] ((1 : Int) + 1) = some 7 := by decide
  simp only [hpa, hpb]
  unfold detour_seg
  rw [if_neg (by norm_num [rand_q, rng0] : ¬ ((rand_q rng0 1).1 < 1 / 2))]
  rfl

/-- Witness for C6: a route-switch run on `[5, 6, 7]` and a detour run on
`[5, 6, 7, 8, 9, 10]` with the concrete generator. -/
theorem unperturbed_positions_preserved_witness :
    (([5, 6, 7] : List Int).head? = some 5) ∧
    ∃ (a b : Nat) (off : Int × Int), 1 ≤ a ∧ a ≤ b ∧
      b + 2 ≤ ([5, 6, 7, 8, 9, 10] : List Int).length ∧
      ([5, 9, 7, 8, 9, 10] : List Int) =
        ([5, 6, 7, 8, 9, 10] : List Int).take a ++
        ((([5, 6, 7, 8, 9, 10] : List Int).take b).drop a).map
          (perturb_point 51 158 off 3) ++
        ([5, 6, 7, 8, 9, 10] : List Int).drop b ∧
      (∀ j, j < a → ([5, 9, 7, 8, 9, 10] : List Int).getD j 0 =
        ([5, 6, 7, 8, 9, 10] : List Int).getD j 0) ∧
      (∀ j, b ≤ j → ([5, 9, 7, 8, 9, 10] : List Int).getD j 0 =
        ([5, 6, 7, 8, 9, 10] : List Int).getD j 0) := by
  have hroute := (unperturbed_positions_preserved rng0 51 158 3 (3 / 10)
    [5, 6, 7] 0).1 [5, 6, 7] 1 route_switch_witness_run
  have hdetour := (unperturbed_positions_preserved rng0 51 158 3 (3 / 10)
    [5, 6, 7, 8, 9, 10] 0).2 [5, 9, 7, 8, 9, 10] 2 (by norm_num) (by norm_num)
    detour_witness_run
  exact ⟨hroute.1.trans rfl, hdetour⟩

/-- C5 counterexample: `get_route_switch_outliers` on the one-point source
trajectory `[5]` returns the two-point trajectory `[5, 5]`, so the synthetic
trajectory does NOT always have the same length as its source. -/
theorem route_switch_length_counterexample :
    get_route_switch_outliers rng0 51 158 3 (3 / 10) [[5]] 0 =
      some ([[5, 5]], 0) ∧
      ([[5, 5]] : List (List Int)).headD [] ≠ ([[5]] : List (List Int)).headD [] ∧
      (([[5, 5]] : List (List Int)).headD []).length ≠
        (([[5]] : List (List Int)).headD []).length := by
  refine ⟨rfl, by decide, by decide⟩

/-- C5 amended: a route-switch output has the length of its source for every
source of length at least 2 (a one-point source yields two points, the
endpoints being emitted separately), and every successful detour output has
the length of its source. -/
theorem outlier_length_preserved (g : NpRng) (m0 m1 : Nat) (level : Int)
    (prob : Rat) (traj : List Int) (s : Nat) :
    (∀ out s1, 2 ≤ traj.length →
      route_switch_traj g m0 m1 level prob traj s = some (out, s1) →
      out.length = traj.length) ∧
    (∀ out s1, 0 ≤ prob → prob ≤ 1 →
      detour_traj g m0 m1 level prob traj s = some (out, s1) →
      out.length = traj.length) := by
  constructor
  · intro out s1 hlen h
    cases traj with
    | nil => exact Option.noConfusion h
    | cons t0 rest =>
      unfold route_switch_traj at h
      have hpr := Option.some.inj h
      rw [Prod.mk.injEq] at hpr
      obtain ⟨hout, -⟩ := hpr
      rw [← hout]
      simp [route_switch_points_length, List.length_dropLast]
      have hr : 1 ≤ rest.length := by
        have := hlen
        simp at this
        omega
      omega
  · intro out s1 h0 h1 h
    obtain ⟨a, b, off, ha, hab, hb2, hout⟩ :=
      detour_traj_structure g m0 m1 level prob traj s out s1 h0 h1 h
    rw [hout]
    simp only [List.length_append, List.length_map, List.length_drop,
      List.length_take]
    omega

/-- Witness for C5 (amended): the same concrete runs as the C6 witness. -/
theorem outlier_length_preserved_witness :
    ([5, 6, 7] : List Int).length = ([5, 6, 7] : List Int).length ∧
      ([5, 9, 7, 8, 9, 10] : List Int).length =
        ([5, 6, 7, 8, 9, 10] : List Int).length := by
  have hroute := (outlier_length_preserved rng0 51 158 3 (3 / 10)
    [5, 6, 7] 0).1 [5, 6, 7] 1 (by decide) route_switch_witness_run
  have hdetour := (outlier_length_preserved rng0 51 158 3 (3 / 10)
    [5, 6, 7, 8, 9, 10] 0).2 [5, 9, 7, 8, 9, 10] 2 (by norm_num) (by norm_num)
    detour_witness_run
  exact ⟨hroute, hdetour⟩

end LMTAD
